import Mathlib

/-!
Verification development for the GitHub workflow plugin
(`workflow-plugin-github`).

The Go sources are shallowly embedded:

* Loosely-typed JSON payloads (`map[string]any` produced by `json.Unmarshal`)
  become the inductive `JValue`; objects are association lists.
* `GitEvent` and the per-event-type normalizers (`normalizeGitHubEvent`,
  `normalizePushEvent`, `normalizePREvent`, `normalizeReleaseEvent`,
  `normalizeRefEvent`, `normalizeGenericEvent`) are translated directly.
* Go standard-library collaborators that are not part of the repository
  (JSON parsing, `time.ParseDuration`, `os.ExpandEnv`, duration formatting)
  are passed in as explicit oracle parameters; their results are what the
  repository code consumes.
* Byte strings (`[]byte`, and Go `string` values used as byte sequences)
  are `List Nat`.
-/

/-- A generic JSON value, the model of Go's `any` after `json.Unmarshal`.
Objects are association lists of key/value pairs. -/
inductive JValue where
  | null
  | jbool (b : Bool)
  | num (n : Int)
  | str (s : String)
  | arr (xs : List JValue)
  | obj (o : List (String × JValue))

/-- A parsed generic JSON object (Go `map[string]any`). -/
abbrev JObj := List (String × JValue)

/-- Key lookup in a JSON object (Go map indexing; absent key yields nothing). -/
def jlookup : JObj → String → Option JValue
  | [], _ => none
  | (k, v) :: rest, key => if k = key then some v else jlookup rest key

/-- Go `m[k].(string)` with the comma-ok form discarded: yields the string
when the key holds a string, and `""` on absence or type mismatch. -/
def getStrD (o : JObj) (k : String) : String :=
  match jlookup o k with
  | some (.str s) => s
  | _ => ""

/-- Go `m[k].(map[string]any)` comma-ok form: yields the nested object when
present and of object type, `none` otherwise. -/
def getObjOpt (o : JObj) (k : String) : Option JObj :=
  match jlookup o k with
  | some (.obj m) => some m
  | _ => none

/-- `GitEvent` is the normalized event schema published to the message
broker (all-string fields; `rawPayload` keeps the original body bytes;
`timestamp` is the capture time, modelled as an abstract instant). -/
structure GitEvent where
  provider : String := ""
  eventType : String := ""
  repository : String := ""
  branch : String := ""
  commit : String := ""
  author : String := ""
  message : String := ""
  url : String := ""
  rawPayload : List Nat := []
  timestamp : Nat := 0
deriving DecidableEq

/-- Go `strings.TrimPrefix pre s`: removes exactly one leading copy of
`pre` when present, otherwise returns `s` unchanged. -/
def trimPref (pre s : String) : String :=
  if pre.data.isPrefixOf s.data then { data := s.data.drop pre.data.length } else s

/-- `normalizePushEvent` extracts fields from a push event payload. -/
def normalizePushEvent (event : GitEvent) (payload : JObj) : GitEvent :=
  let ev1 := { event with branch := trimPref "refs/heads/" (getStrD payload "ref") }
  let ev2 :=
    match getObjOpt payload "head_commit" with
    | some hc =>
      let evc := { ev1 with
        commit := getStrD hc "id", message := getStrD hc "message", url := getStrD hc "url" }
      match getObjOpt hc "author" with
      | some a =>
        if getStrD a "username" ≠ "" then { evc with author := getStrD a "username" }
        else { evc with author := getStrD a "name" }
      | none => evc
    | none => { ev1 with commit := getStrD payload "after" }
  let ev3 :=
    match getObjOpt payload "pusher" with
    | some pu => if ev2.author = "" then { ev2 with author := getStrD pu "name" } else ev2
    | none => ev2
  match getObjOpt payload "sender" with
  | some se => if ev3.author = "" then { ev3 with author := getStrD se "login" } else ev3
  | none => ev3

/-- `normalizePREvent` extracts fields from a pull_request event payload. -/
def normalizePREvent (event : GitEvent) (payload : JObj) : GitEvent :=
  match getObjOpt payload "pull_request" with
  | some pr =>
    let ev1 := { event with message := getStrD pr "title", url := getStrD pr "html_url" }
    let ev2 :=
      match getObjOpt pr "head" with
      | some head => { ev1 with branch := getStrD head "ref", commit := getStrD head "sha" }
      | none => ev1
    match getObjOpt pr "user" with
    | some user => { ev2 with author := getStrD user "login" }
    | none => ev2
  | none => event

/-- `normalizeReleaseEvent` extracts fields from a release event payload. -/
def normalizeReleaseEvent (event : GitEvent) (payload : JObj) : GitEvent :=
  match getObjOpt payload "release" with
  | some rel =>
    let ev1 := { event with
      message := getStrD rel "tag_name", url := getStrD rel "html_url",
      branch := getStrD rel "tag_name" }
    match getObjOpt rel "author" with
    | some a => { ev1 with author := getStrD a "login" }
    | none => ev1
  | none => event

/-- `normalizeRefEvent` extracts fields from a create/delete event payload. -/
def normalizeRefEvent (event : GitEvent) (payload : JObj) : GitEvent :=
  let ev1 := { event with branch := getStrD payload "ref" }
  match getObjOpt payload "sender" with
  | some se => { ev1 with author := getStrD se "login" }
  | none => ev1

/-- `normalizeGenericEvent` does best-effort extraction from an unknown event. -/
def normalizeGenericEvent (event : GitEvent) (payload : JObj) : GitEvent :=
  match getObjOpt payload "sender" with
  | some se => { event with author := getStrD se "login" }
  | none => event

/-- The successful branch of `normalizeGitHubEvent`: builds the base event
(provider, event type, raw payload, capture time), extracts the repository
full name, then dispatches on the event type. -/
def normOk (eventType : String) (body : List Nat) (payload : JObj) (now : Nat) : GitEvent :=
  let event : GitEvent :=
    { provider := "github", eventType := eventType, rawPayload := body, timestamp := now }
  let event :=
    match getObjOpt payload "repository" with
    | some repo => { event with repository := getStrD repo "full_name" }
    | none => event
  if eventType = "push" then normalizePushEvent event payload
  else if eventType = "pull_request" then normalizePREvent event payload
  else if eventType = "release" then normalizeReleaseEvent event payload
  else if eventType = "create" ∨ eventType = "delete" then normalizeRefEvent event payload
  else normalizeGenericEvent event payload

/-- `normalizeGitHubEvent` converts a raw GitHub webhook payload into a
`GitEvent`.  `parsed` is the outcome of `json.Unmarshal(body, &payload)`
(a standard-library collaborator): an error there is wrapped and is the
only error this function produces. -/
def normalizeGitHubEvent (eventType : String) (body : List Nat)
    (parsed : Except String JObj) (now : Nat) : Except String GitEvent :=
  match parsed with
  | .error e => .error ("unmarshal payload: " ++ e)
  | .ok payload => .ok (normOk eventType body payload now)

/-- First non-empty string of a list (spec-side helper: the spec's
"first non-empty wins" fallback chain for author resolution). -/
def firstNonEmpty : List String → String
  | [] => ""
  | s :: rest => if s = "" then firstNonEmpty rest else s

/-- Spec-side: the push head-commit author's sub-field `k`, or `""` when the
head commit or its author object is absent. -/
def hcAuthorField (payload : JObj) (k : String) : String :=
  match getObjOpt payload "head_commit" with
  | some hc =>
    match getObjOpt hc "author" with
    | some a => getStrD a k
    | none => ""
  | none => ""

/-- Spec-side: the pusher's name, or `""` when absent. -/
def pusherNameOf (payload : JObj) : String :=
  match getObjOpt payload "pusher" with
  | some pu => getStrD pu "name"
  | none => ""

/-- Spec-side: the sender's login, or `""` when absent. -/
def senderLoginOf (payload : JObj) : String :=
  match getObjOpt payload "sender" with
  | some se => getStrD se "login"
  | none => ""

/-- Spec-side: the repository full name, or `""` when absent. -/
def repoFullNameOf (payload : JObj) : String :=
  match getObjOpt payload "repository" with
  | some repo => getStrD repo "full_name"
  | none => ""

/-- A JSON value that is a string or an object (the only shapes the
normalizers extract from). -/
def isStrObj : JValue → Bool
  | .str _ => true
  | .obj _ => true
  | _ => false

/-! ### SHA-256, HMAC and signature validation

`crypto/sha256`, `crypto/hmac`, `encoding/hex` and `crypto/subtle` are Go
standard-library collaborators; they are embedded executably here because
the signature claims quantify over their results.  Bytes are `Nat`s below
256, 32-bit words are `Nat`s below `2 ^ 32`.
-/

/-- 32-bit modulus. -/
def u32 : Nat := 4294967296

/-- 32-bit wrapping addition. -/
def add32 (a b : Nat) : Nat := (a + b) % u32

/-- 32-bit right rotation. -/
def rotr32 (x n : Nat) : Nat := ((x >>> n) ||| (x <<< (32 - n))) % u32

/-- SHA-256 small sigma 0. -/
def ssig0 (x : Nat) : Nat := (rotr32 x 7) ^^^ (rotr32 x 18) ^^^ (x >>> 3)

/-- SHA-256 small sigma 1. -/
def ssig1 (x : Nat) : Nat := (rotr32 x 17) ^^^ (rotr32 x 19) ^^^ (x >>> 10)

/-- SHA-256 big sigma 0. -/
def bsig0 (x : Nat) : Nat := (rotr32 x 2) ^^^ (rotr32 x 13) ^^^ (rotr32 x 22)

/-- SHA-256 big sigma 1. -/
def bsig1 (x : Nat) : Nat := (rotr32 x 6) ^^^ (rotr32 x 11) ^^^ (rotr32 x 25)

/-- SHA-256 choice function (`not32 e` is `e ^^^ (2 ^ 32 - 1)`). -/
def chF (e f g : Nat) : Nat := (e &&& f) ^^^ ((e ^^^ 4294967295) &&& g)

/-- SHA-256 majority function. -/
def majF (a b c : Nat) : Nat := (a &&& b) ^^^ (a &&& c) ^^^ (b &&& c)

/-- The eight 32-bit words of a SHA-256 hash state. -/
structure H8 where
  a : Nat
  b : Nat
  c : Nat
  d : Nat
  e : Nat
  f : Nat
  g : Nat
  h : Nat

/-- SHA-256 initial hash state. -/
def sha256Init : H8 :=
  ⟨1779033703, 3144134277, 1013904242, 2773480762,
   1359893119, 2600822924, 528734635, 1541459225⟩

/-- The 64 SHA-256 round constants. -/
def sha256K : List Nat :=
  [1116352408, 1899447441, 3049323471, 3921009573, 961987163,
   1508970993, 2453635748, 2870763221, 3624381080, 310598401,
   607225278, 1426881987, 1925078388, 2162078206, 2614888103,
   3248222580, 3835390401, 4022224774, 264347078, 604807628,
   770255983, 1249150122, 1555081692, 1996064986, 2554220882,
   2821834349, 2952996808, 3210313671, 3336571891, 3584528711,
   113926993, 338241895, 666307205, 773529912, 1294757372,
   1396182291, 1695183700, 1986661051, 2177026350, 2456956037,
   2730485921, 2820302411, 3259730800, 3345764771, 3516065817,
   3600352804, 4094571909, 275423344, 430227734, 506948616,
   659060556, 883997877, 958139571, 1322822218, 1537002063,
   1747873779, 1955562222, 2024104815, 2227730452, 2361852424,
   2428436474, 2756734187, 3204031479, 3329325298]

/-- Group a byte list into big-endian 32-bit words (truncating a ragged tail). -/
def toWords : List Nat → List Nat
  | b0 :: b1 :: b2 :: b3 :: rest =>
    (b0 * 16777216 + b1 * 65536 + b2 * 256 + b3) :: toWords rest
  | _ => []

/-- Produce `n` further message-schedule words from a sliding window holding
the previous 16 words. -/
def schedExtend : Nat → List Nat → List Nat
  | 0, _ => []
  | Nat.succ n, win =>
    let nw := add32 (add32 (win.getD 0 0) (ssig0 (win.getD 1 0)))
                    (add32 (win.getD 9 0) (ssig1 (win.getD 14 0)))
    nw :: schedExtend n (win.drop 1 ++ [nw])

/-- The 64-word message schedule of one block (its 16 words extended by 48). -/
def msgSchedule (w16 : List Nat) : List Nat := w16 ++ schedExtend 48 w16

/-- One SHA-256 compression round. -/
def roundStep (st : H8) (k w : Nat) : H8 :=
  let t1 := add32 st.h (add32 (bsig1 st.e) (add32 (chF st.e st.f st.g) (add32 k w)))
  let t2 := add32 (bsig0 st.a) (majF st.a st.b st.c)
  ⟨add32 t1 t2, st.a, st.b, st.c, add32 st.d t1, st.e, st.f, st.g⟩

/-- Run the 64 compression rounds over pairs of constants and schedule words. -/
def compressRounds : List Nat → List Nat → H8 → H8
  | k :: ks, w :: ws, st => compressRounds ks ws (roundStep st k w)
  | _, _, st => st

/-- Compress one 64-byte block into the running hash state. -/
def compressBlock (st : H8) (block : List Nat) : H8 :=
  let r := compressRounds sha256K (msgSchedule (toWords block)) st
  ⟨add32 st.a r.a, add32 st.b r.b, add32 st.c r.c, add32 st.d r.d,
   add32 st.e r.e, add32 st.f r.f, add32 st.g r.g, add32 st.h r.h⟩

/-- Split a byte list into 64-byte chunks; structural recursion on a fuel
bound (one unit per chunk, so the list's length always suffices). -/
def chunksF : Nat → List Nat → List (List Nat)
  | 0, _ => []
  | _, [] => []
  | Nat.succ fuel, b :: rest => (b :: rest).take 64 :: chunksF fuel ((b :: rest).drop 64)

/-- Split a byte list into 64-byte chunks. -/
def chunks64 (l : List Nat) : List (List Nat) := chunksF l.length l

/-- Big-endian 8-byte encoding of a (64-bit) length. -/
def be64 (n : Nat) : List Nat :=
  [n / 2 ^ 56 % 256, n / 2 ^ 48 % 256, n / 2 ^ 40 % 256, n / 2 ^ 32 % 256,
   n / 2 ^ 24 % 256, n / 2 ^ 16 % 256, n / 2 ^ 8 % 256, n % 256]

/-- Big-endian 4-byte encoding of a 32-bit word. -/
def be32 (n : Nat) : List Nat :=
  [n / 16777216 % 256, n / 65536 % 256, n / 256 % 256, n % 256]

/-- SHA-256 padding: a `0x80` byte, zeros to 56 mod 64, then the bit length. -/
def sha256Pad (msg : List Nat) : List Nat :=
  msg ++ 128 :: List.replicate ((119 - msg.length % 64) % 64) 0 ++ be64 (8 * msg.length)

/-- SHA-256 of a byte list, as a 32-byte list. -/
def sha256 (msg : List Nat) : List Nat :=
  let st := (chunks64 (sha256Pad msg)).foldl compressBlock sha256Init
  be32 st.a ++ be32 st.b ++ be32 st.c ++ be32 st.d ++
  be32 st.e ++ be32 st.f ++ be32 st.g ++ be32 st.h

/-- HMAC-SHA256 (`crypto/hmac` with a SHA-256 inner hash): keys longer than
the 64-byte block size are first hashed, then zero-padded to the block size. -/
def hmacSha256 (key msg : List Nat) : List Nat :=
  let k0 := if 64 < key.length then sha256 key else key
  let kp := k0 ++ List.replicate (64 - k0.length) 0
  sha256 ((kp.map (fun b => b ^^^ 92)) ++ sha256 ((kp.map (fun b => b ^^^ 54)) ++ msg))

/-- Lower-case hex digit (as an ASCII byte) of a value below 16. -/
def hexDig (n : Nat) : Nat := if n < 10 then 48 + n else 87 + n

/-- `encoding/hex`: two lower-case hex digits per byte. -/
def hexEncode : List Nat → List Nat
  | [] => []
  | b :: rest => hexDig (b / 16 % 16) :: hexDig (b % 16) :: hexEncode rest

/-- The running exclusive-or/or accumulation of `crypto/subtle`'s
`ConstantTimeCompare` loop (`v |= x[i] ^ y[i]`). -/
def ctFold (ps : List (Nat × Nat)) (v : Nat) : Nat :=
  ps.foldl (fun acc p => acc ||| (p.1 ^^^ p.2)) v

/-- `subtle.ConstantTimeCompare`: 0 on length mismatch, otherwise 1 exactly
when the full-traversal accumulated difference is zero. -/
def constantTimeCompare (x y : List Nat) : Nat :=
  if x.length = y.length then (if ctFold (x.zip y) 0 = 0 then 1 else 0) else 0

/-- The number of loop iterations `ConstantTimeCompare` executes: zero on a
length mismatch (early return), otherwise one per byte — never dependent on
the byte values themselves. -/
def ctCost (x y : List Nat) : Nat :=
  if x.length = y.length then x.length else 0

/-- `hmac.Equal`: constant-time equality of two byte lists. -/
def hmacEqual (x y : List Nat) : Bool := constantTimeCompare x y == 1

/-- `computeSignature` returns the HMAC-SHA256 hex digest of `body` signed
with `secret` (digest bytes are ASCII hex characters). -/
def computeSignature (body secret : List Nat) : List Nat :=
  hexEncode (hmacSha256 secret body)

/-- The ASCII bytes of the `"sha256="` signature-header prefix. -/
def sigScheme : List Nat := [115, 104, 97, 50, 53, 54, 61]

/-- `validateSignature` verifies a GitHub webhook HMAC-SHA256 signature;
`sig` is expected in the format `sha256=<hex>` (bytes of the header value). -/
def validateSignature (body secret sig : List Nat) : Bool :=
  if sigScheme.isPrefixOf sig then
    hmacEqual (sig.drop sigScheme.length) (computeSignature body secret)
  else false

/-! ### Webhook receiver (`webhookModule.handleWebhook`)

The HTTP layer is embedded as a pure function from one request (plus the
outcomes of the standard-library collaborators it consults) to the HTTP
response and the list of publish calls made on the broker.  Header access
follows Go's `Header.Get`: an absent header is the empty value.
-/

/-- Parsed configuration of a `git.webhook` module (the `secret` is kept as
its byte sequence, `[]` meaning no secret configured). -/
structure webhookConfig where
  provider : String
  secret : List Nat
  events : List String
  topic : String
deriving DecidableEq

/-- `containsString` reports whether `slice` contains `s`. -/
def containsString : List String → String → Bool
  | [], _ => false
  | v :: rest, s => if v = s then true else containsString rest s

/-- One inbound webhook delivery: the request method, the outcome of
`readLimitedBody` (a read error or the body bytes, with the 25 MiB cap
applied), and the two headers (`[]`/`""` when absent). -/
structure WebhookReq where
  method : String
  bodyRead : Except String (List Nat)
  sigHeader : List Nat
  eventHeader : String

/-- Collaborator outcomes consulted after validation: the `json.Unmarshal`
result for the body, the capture time, the `json.Marshal` result for the
normalized event, whether a publisher is attached, and the publish outcome. -/
structure HandlerEnv where
  parsed : Except String JObj
  now : Nat
  marshal : Except String (List Nat)
  hasPublisher : Bool
  publishOutcome : Except String Nat

/-- An HTTP response: status code and body text (error bodies carry the
trailing newline `http.Error` appends). -/
structure HttpResp where
  status : Nat
  body : String
deriving DecidableEq

/-- One call made on the message publisher. -/
structure PublishCall where
  topic : String
  payload : List Nat
  meta : List (String × String)
deriving DecidableEq

/-- `handleWebhook` is the HTTP handler for incoming GitHub webhook events:
method check, body read, optional signature validation, event-type header
check, allow-list filter, normalization, then publish. -/
def handleWebhook (cfg : webhookConfig) (req : WebhookReq) (env : HandlerEnv) :
    HttpResp × List PublishCall :=
  if req.method ≠ "POST" then ({ status := 405, body := "method not allowed\n" }, [])
  else
    match req.bodyRead with
    | .error _ => ({ status := 400, body := "failed to read body\n" }, [])
    | .ok body =>
      if cfg.secret ≠ [] ∧ req.sigHeader = [] then
        ({ status := 401, body := "missing X-Hub-Signature-256 header\n" }, [])
      else if cfg.secret ≠ [] ∧ validateSignature body cfg.secret req.sigHeader = false then
        ({ status := 401, body := "invalid signature\n" }, [])
      else if req.eventHeader = "" then
        ({ status := 400, body := "missing X-GitHub-Event header\n" }, [])
      else if cfg.events ≠ [] ∧ containsString cfg.events req.eventHeader = false then
        ({ status := 200, body := "\x7b\"status\":\"ignored\"\x7d" }, [])
      else
        match normalizeGitHubEvent req.eventHeader body env.parsed env.now with
        | .error e => ({ status := 400, body := "failed to normalize event: " ++ e ++ "\n" }, [])
        | .ok event =>
          if env.hasPublisher then
            match env.marshal with
            | .error _ => ({ status := 500, body := "failed to marshal event\n" }, [])
            | .ok payload =>
              let call : PublishCall :=
                { topic := cfg.topic, payload := payload,
                  meta := [("event_type", event.eventType), ("provider", event.provider),
                           ("repository", event.repository)] }
              match env.publishOutcome with
              | .error e =>
                ({ status := 500, body := "failed to publish event: " ++ e ++ "\n" }, [call])
              | .ok _ => ({ status := 200, body := "\x7b\"status\":\"accepted\"\x7d" }, [call])
          else ({ status := 200, body := "\x7b\"status\":\"accepted\"\x7d" }, [])

/-! ### Status step (`step.gh_action_status`)

Configuration parsing and the polling `Execute` loop.  `time.ParseDuration`,
`os.ExpandEnv`, `strconv` error text and `time.Duration` formatting are
standard-library collaborators passed in as oracles; durations and instants
are `Int` nanosecond counts, as in Go.
-/

/-- A value of a raw `map[string]any` configuration entry, keeping the Go
dynamic types the config parsers switch on. -/
inductive CVal where
  | vStr (s : String)
  | vInt (n : Int)
  | vInt64 (n : Int)
  | vFloat (q : Rat)
  | vBool (b : Bool)
  | vOther
deriving DecidableEq

/-- Go `m[k].(string)` on a raw config map: `""` on absence or mismatch. -/
def getRawStr (raw : String → Option CVal) (k : String) : String :=
  match raw k with
  | some (.vStr s) => s
  | _ => ""

/-- Go `m[k].(bool)` on a raw config map: `false` on absence or mismatch. -/
def getRawBool (raw : String → Option CVal) (k : String) : Bool :=
  match raw k with
  | some (.vBool b) => b
  | _ => false

/-- Go's `int64(f)` conversion of a `float64`: truncation toward zero. -/
def truncRat (q : Rat) : Int := if 0 ≤ q then Rat.floor q else Rat.ceil q

/-- The numeric value of a non-empty all-digit character list. -/
def digitsVal : List Char → Option Nat
  | [] => none
  | ds => go ds 0
where
  go : List Char → Nat → Option Nat
    | [], acc => some acc
    | c :: rest, acc =>
      if '0' ≤ c ∧ c ≤ '9' then go rest (acc * 10 + (c.toNat - 48)) else none

/-- Minimal model of Go's `%q` quoting of a string (used only to build
error/response texts; no claim inspects its output). -/
def goQuote (s : String) : String :=
  "\"" ++ String.join (s.data.map (fun c =>
    if c = '"' then "\\\"" else if c = '\\' then "\\\\"
    else if c = '\n' then "\\n" else if c = '\t' then "\\t"
    else if c = '\r' then "\\r" else String.singleton c)) ++ "\""

/-- `strconv.ParseInt(s, 10, 64)`: optional sign, decimal digits, with the
64-bit range check; errors carry `strconv`'s message shape. -/
def parseInt64 (s : String) : Except String Int :=
  let mk := fun (msg : String) => "strconv.ParseInt: parsing " ++ goQuote s ++ ": " ++ msg
  match s.data with
  | [] => .error (mk "invalid syntax")
  | c :: rest =>
    let signDigits : Bool × List Char :=
      if c = '-' then (true, rest) else if c = '+' then (false, rest) else (false, c :: rest)
    match digitsVal signDigits.2 with
    | none => .error (mk "invalid syntax")
    | some n =>
      if signDigits.1 then
        if n ≤ 2 ^ 63 then .ok (-(n : Int)) else .error (mk "value out of range")
      else
        if n ≤ 2 ^ 63 - 1 then .ok (n : Int) else .error (mk "value out of range")

/-- Parsed configuration for `step.gh_action_status`. -/
structure actionStatusConfig where
  owner : String := ""
  repo : String := ""
  runID : Int := 0
  token : String := ""
  wait : Bool := false
  pollInterval : Int := 0
  timeout : Int := 0
deriving DecidableEq

/-- `parseActionStatusConfig` converts a raw config map to an
`actionStatusConfig`.  `parseDur` is `time.ParseDuration` and `expandEnv`
is `os.ExpandEnv` (standard-library oracles). -/
def parseActionStatusConfig (raw : String → Option CVal)
    (parseDur : String → Except String Int) (expandEnv : String → String) :
    Except String actionStatusConfig :=
  let owner := getRawStr raw "owner"
  if owner = "" then .error "config.owner is required"
  else
    let repo := getRawStr raw "repo"
    if repo = "" then .error "config.repo is required"
    else
      let runIDRes : Except String Int :=
        match raw "run_id" with
        | some (.vInt n) => .ok n
        | some (.vInt64 n) => .ok n
        | some (.vFloat q) => .ok (truncRat q)
        | some (.vStr s) =>
          if s ≠ "" then
            match parseInt64 s with
            | .error e => .error ("config.run_id is not a valid integer: " ++ e)
            | .ok n => .ok n
          else .ok 0
        | _ => .ok 0
      match runIDRes with
      | .error e => .error e
      | .ok runID =>
        if runID = 0 then .error "config.run_id is required"
        else
          let token := expandEnv (getRawStr raw "token")
          let wait := getRawBool raw "wait"
          let pollRaw := getRawStr raw "poll_interval"
          let pollStr := if pollRaw = "" then "10s" else pollRaw
          match parseDur pollStr with
          | .error e => .error ("config.poll_interval is invalid: " ++ e)
          | .ok pollInterval =>
            let timeoutRaw := getRawStr raw "timeout"
            let timeoutStr := if timeoutRaw = "" then "30m" else timeoutRaw
            match parseDur timeoutStr with
            | .error e => .error ("config.timeout is invalid: " ++ e)
            | .ok timeout =>
              .ok { owner := owner, repo := repo, runID := runID, token := token,
                    wait := wait, pollInterval := pollInterval, timeout := timeout }

/-- A GitHub Actions workflow run, as returned by the API client. -/
structure WorkflowRun where
  id : Int
  status : String
  conclusion : String
  htmlURL : String
deriving DecidableEq

/-- A dynamically-typed step output value (`map[string]any` entries). -/
inductive OutVal where
  | str (s : String)
  | int (n : Int)
  | bool (b : Bool)
  | obj (o : List (String × OutVal))

/-- Key lookup in a step output map. -/
def outLookup : List (String × OutVal) → String → Option OutVal
  | [], _ => none
  | (k, v) :: rest, key => if k = key then some v else outLookup rest key

/-- Go `out[k].(string)` on a step output map: `""` on absence/mismatch. -/
def outStr (o : List (String × OutVal)) (k : String) : String :=
  match outLookup o k with
  | some (.str s) => s
  | _ => ""

/-- The result of one step execution (`sdk.StepResult`). -/
structure StepResult where
  stopPipeline : Bool
  output : List (String × OutVal)

/-- `errorResult` returns a `StepResult` that stops the pipeline with an
error message. -/
def errorResult (msg : String) : StepResult :=
  { stopPipeline := true,
    output :=
      [("response_status", .int 500),
       ("response_body", .str ("\x7b\"error\":" ++ goQuote msg ++ "\x7d")),
       ("response_headers", .obj [("Content-Type", .str "application/json")]),
       ("error", .str msg)] }

/-- `isTerminalStatus` reports whether a workflow run status is terminal. -/
def isTerminalStatus (status : String) : Bool := status = "completed"

/-- `fetchStatus` maps one `GetWorkflowRun` outcome to a step result: a
client error becomes a stopped result carrying the message, a run becomes
a passing result with its status fields. -/
def fetchStatus (r : Except String WorkflowRun) : StepResult :=
  match r with
  | .error e => errorResult ("failed to get workflow run: " ++ e)
  | .ok run =>
    { stopPipeline := false,
      output := [("run_id", .int run.id), ("status", .str run.status),
                 ("conclusion", .str run.conclusion), ("url", .str run.htmlURL)] }

/-- The environment one `Execute` call observes: the successive
`GetWorkflowRun` outcomes, the `time.Now()` reading at each iteration's
deadline check, and whether cancellation wins the select race of each
iteration's inter-poll wait. -/
structure PollEnv where
  fetch : Nat → Except String WorkflowRun
  nowAfterFetch : Nat → Int
  cancelled : Nat → Bool

/-- The timeout message of the polling loop (`durStr` renders the
configured `time.Duration`). -/
def timeoutMessage (cfg : actionStatusConfig) (durStr : Int → String) : String :=
  "timeout waiting for workflow run " ++ toString cfg.runID ++ " after " ++ durStr cfg.timeout

/-- The `wait=true` polling loop of `Execute`, indexed by iteration number
`i`; `fuel` bounds the recursion purely for well-foundedness (`none`
means the bound was hit, which the timeout theorems rule out). -/
def executeLoop (cfg : actionStatusConfig) (env : PollEnv) (durStr : Int → String)
    (deadline : Int) : Nat → Nat → Option StepResult
  | 0, _ => none
  | Nat.succ fuel, i =>
    let result := fetchStatus (env.fetch i)
    if isTerminalStatus (outStr result.output "status") then some result
    else if deadline < env.nowAfterFetch i then
      some (errorResult (timeoutMessage cfg durStr))
    else if env.cancelled i then
      some (errorResult "context cancelled while waiting for workflow run")
    else executeLoop cfg env durStr deadline fuel (i + 1)

/-- `Execute` of the status step: token check, then a single fetch when
`wait` is off, otherwise the deadline-bounded polling loop starting from
`startTime` (the `time.Now()` before the loop). -/
def executeStatus (cfg : actionStatusConfig) (env : PollEnv) (durStr : Int → String)
    (startTime : Int) (fuel : Nat) : Option StepResult :=
  if cfg.token = "" then some (errorResult "GITHUB_TOKEN is not configured")
  else if cfg.wait = false then some (fetchStatus (env.fetch 0))
  else executeLoop cfg env durStr (startTime + cfg.timeout) fuel 0

/-! ### Claims -/

/-- C10: for a status-step configuration map (with valid `owner`/`repo`) in
which `run_id` is present but equal to zero — as integer 0, 64-bit integer 0,
a float truncating to 0, the string "0" (or any numeric string parsing to 0),
or the empty string — `parseActionStatusConfig` returns the
"config.run_id is required" error, exactly as when `run_id` is absent. -/
theorem runID_zero_rejected (raw : String → Option CVal)
    (parseDur : String → Except String Int) (expandEnv : String → String) (o r : String)
    (ho : raw "owner" = some (.vStr o)) (ho' : o ≠ "")
    (hr : raw "repo" = some (.vStr r)) (hr' : r ≠ "")
    (hz : raw "run_id" = none ∨ raw "run_id" = some (.vInt 0) ∨
          raw "run_id" = some (.vInt64 0) ∨
          (∃ q, raw "run_id" = some (.vFloat q) ∧ truncRat q = 0) ∨
          (∃ s, raw "run_id" = some (.vStr s) ∧ s ≠ "" ∧ parseInt64 s = .ok 0) ∨
          raw "run_id" = some (.vStr "")) :
    parseActionStatusConfig raw parseDur expandEnv = .error "config.run_id is required" := by
  unfold parseActionStatusConfig
  simp only [getRawStr, ho, hr, ho', hr', if_neg]
  rcases hz with hz | hz | hz | ⟨q, hz, hq⟩ | ⟨s, hz, hs, hps⟩ | hz
  · simp [hz]
  · simp [hz]
  · simp [hz]
  · simp [hz, hq]
  · simp [hz, hs, hps]
  · simp [hz]

/-- Witness for C10 at a concrete configuration map carrying `run_id = 0`. -/
theorem runID_zero_rejected_witness :
    parseActionStatusConfig
      (fun k => if k = "owner" then some (.vStr "GoCodeAlone")
                else if k = "repo" then some (.vStr "workflow")
                else if k = "run_id" then some (.vInt 0) else none)
      (fun _ => .ok 1) id = .error "config.run_id is required" :=
  runID_zero_rejected _ _ _ "GoCodeAlone" "workflow" (by decide) (by decide) (by decide)
    (by decide) (Or.inr (Or.inl (by decide)))

/-- In a payload whose values are all neither strings nor objects, every
lookup that succeeds returns a wrongly-typed value. -/
theorem jlookup_all_false {p : JObj}
    (hall : p.all (fun kv => !isStrObj kv.2) = true) :
    ∀ k v, jlookup p k = some v → isStrObj v = false := by
  induction p with
  | nil => intro k v h; simp [jlookup] at h
  | cons kv rest ih =>
    intro k v h
    obtain ⟨k0, v0⟩ := kv
    simp only [List.all_cons, Bool.and_eq_true, Bool.not_eq_true'] at hall
    unfold jlookup at h
    by_cases hk : k0 = k
    · simp [hk] at h
      subst h
      exact hall.1
    · simp [hk] at h
      exact ih (by simpa using hall.2) k v h

/-- String extraction defaults to `""` on a payload of wrongly-typed values. -/
theorem getStrD_all {p : JObj}
    (hall : p.all (fun kv => !isStrObj kv.2) = true) (k : String) :
    getStrD p k = "" := by
  unfold getStrD
  cases h : jlookup p k with
  | none => rfl
  | some v =>
    have hv := jlookup_all_false hall k v h
    cases v <;> simp_all [isStrObj]

/-- Object extraction defaults to `none` on a payload of wrongly-typed values. -/
theorem getObjOpt_all {p : JObj}
    (hall : p.all (fun kv => !isStrObj kv.2) = true) (k : String) :
    getObjOpt p k = none := by
  unfold getObjOpt
  cases h : jlookup p k with
  | none => rfl
  | some v =>
    have hv := jlookup_all_false hall k v h
    cases v <;> simp_all [isStrObj]

/-- Stripping the branch prefix from the empty ref yields the empty branch. -/
theorem trimPref_empty : trimPref "refs/heads/" "" = "" := by decide

/-- `normalizePushEvent` leaves the base fields of the event unchanged. -/
theorem normalizePushEvent_base (ev : GitEvent) (p : JObj) :
    (normalizePushEvent ev p).provider = ev.provider ∧
    (normalizePushEvent ev p).eventType = ev.eventType ∧
    (normalizePushEvent ev p).timestamp = ev.timestamp ∧
    (normalizePushEvent ev p).rawPayload = ev.rawPayload := by
  refine ⟨?_, ?_, ?_, ?_⟩ <;> (simp only [normalizePushEvent]; repeat' split) <;> simp

/-- `normalizePREvent` leaves the base fields of the event unchanged. -/
theorem normalizePREvent_base (ev : GitEvent) (p : JObj) :
    (normalizePREvent ev p).provider = ev.provider ∧
    (normalizePREvent ev p).eventType = ev.eventType ∧
    (normalizePREvent ev p).timestamp = ev.timestamp ∧
    (normalizePREvent ev p).rawPayload = ev.rawPayload := by
  refine ⟨?_, ?_, ?_, ?_⟩ <;> (simp only [normalizePREvent]; repeat' split) <;> simp

/-- `normalizeReleaseEvent` leaves the base fields of the event unchanged. -/
theorem normalizeReleaseEvent_base (ev : GitEvent) (p : JObj) :
    (normalizeReleaseEvent ev p).provider = ev.provider ∧
    (normalizeReleaseEvent ev p).eventType = ev.eventType ∧
    (normalizeReleaseEvent ev p).timestamp = ev.timestamp ∧
    (normalizeReleaseEvent ev p).rawPayload = ev.rawPayload := by
  refine ⟨?_, ?_, ?_, ?_⟩ <;> (simp only [normalizeReleaseEvent]; repeat' split) <;> simp

/-- `normalizeRefEvent` leaves the base fields of the event unchanged. -/
theorem normalizeRefEvent_base (ev : GitEvent) (p : JObj) :
    (normalizeRefEvent ev p).provider = ev.provider ∧
    (normalizeRefEvent ev p).eventType = ev.eventType ∧
    (normalizeRefEvent ev p).timestamp = ev.timestamp ∧
    (normalizeRefEvent ev p).rawPayload = ev.rawPayload := by
  refine ⟨?_, ?_, ?_, ?_⟩ <;> (simp only [normalizeRefEvent]; repeat' split) <;> simp

/-- `normalizeGenericEvent` leaves the base fields of the event unchanged. -/
theorem normalizeGenericEvent_base (ev : GitEvent) (p : JObj) :
    (normalizeGenericEvent ev p).provider = ev.provider ∧
    (normalizeGenericEvent ev p).eventType = ev.eventType ∧
    (normalizeGenericEvent ev p).timestamp = ev.timestamp ∧
    (normalizeGenericEvent ev p).rawPayload = ev.rawPayload := by
  refine ⟨?_, ?_, ?_, ?_⟩ <;> (simp only [normalizeGenericEvent]; repeat' split) <;> simp

/-- On a payload with no extractable fields, the push normalizer only
writes the (empty) branch and commit. -/
theorem normalizePushEvent_default (ev : GitEvent) (p : JObj)
    (hg : ∀ k, getObjOpt p k = none) (hs : ∀ k, getStrD p k = "") :
    normalizePushEvent ev p = { ev with branch := "", commit := "" } := by
  unfold normalizePushEvent
  simp [hg, hs, trimPref_empty]

/-- On a payload with no extractable fields, the pull-request normalizer
changes nothing. -/
theorem normalizePREvent_default (ev : GitEvent) (p : JObj)
    (hg : ∀ k, getObjOpt p k = none) :
    normalizePREvent ev p = ev := by
  unfold normalizePREvent
  simp [hg]

/-- On a payload with no extractable fields, the release normalizer
changes nothing. -/
theorem normalizeReleaseEvent_default (ev : GitEvent) (p : JObj)
    (hg : ∀ k, getObjOpt p k = none) :
    normalizeReleaseEvent ev p = ev := by
  unfold normalizeReleaseEvent
  simp [hg]

/-- On a payload with no extractable fields, the create/delete normalizer
only writes the (empty) branch. -/
theorem normalizeRefEvent_default (ev : GitEvent) (p : JObj)
    (hg : ∀ k, getObjOpt p k = none) (hs : ∀ k, getStrD p k = "") :
    normalizeRefEvent ev p = { ev with branch := "" } := by
  unfold normalizeRefEvent
  simp [hg, hs]

/-- On a payload with no extractable fields, the generic normalizer changes
nothing. -/
theorem normalizeGenericEvent_default (ev : GitEvent) (p : JObj)
    (hg : ∀ k, getObjOpt p k = none) :
    normalizeGenericEvent ev p = ev := by
  unfold normalizeGenericEvent
  simp [hg]

/-- The dispatch of `normOk` always yields provider "github", the given
event type, the capture time and the raw body, whatever the payload. -/
theorem normOk_base (et : String) (body : List Nat) (p : JObj) (now : Nat) :
    (normOk et body p now).provider = "github" ∧
    (normOk et body p now).eventType = et ∧
    (normOk et body p now).timestamp = now ∧
    (normOk et body p now).rawPayload = body := by
  refine ⟨?_, ?_, ?_, ?_⟩ <;>
    (simp only [normOk]
     split_ifs <;>
       simp only [normalizePushEvent_base, normalizePREvent_base, normalizeReleaseEvent_base,
                  normalizeRefEvent_base, normalizeGenericEvent_base] <;>
       split <;> rfl)

/-- Spec-side: the push commit — the head commit's id, else the top-level
"after" field; `""` when absent or wrongly typed. -/
def pushCommitOf (p : JObj) : String :=
  match getObjOpt p "head_commit" with
  | some hc => getStrD hc "id"
  | none => getStrD p "after"

/-- Spec-side: the push head commit's field `k`; `""` when the head commit
is absent or the field missing/mistyped. -/
def pushHeadFieldOf (p : JObj) (k : String) : String :=
  match getObjOpt p "head_commit" with
  | some hc => getStrD hc k
  | none => ""

/-- Spec-side: the push author fallback chain. -/
def pushAuthorOf (p : JObj) : String :=
  firstNonEmpty [hcAuthorField p "username", hcAuthorField p "name",
                 pusherNameOf p, senderLoginOf p]

/-- Spec-side: the pull request's field `k`; `""` when the pull-request
object is absent or the field missing/mistyped. -/
def prFieldOf (p : JObj) (k : String) : String :=
  match getObjOpt p "pull_request" with
  | some pr => getStrD pr k
  | none => ""

/-- Spec-side: the pull request head's field `k`; `""` along any absent or
mistyped link of the chain. -/
def prHeadFieldOf (p : JObj) (k : String) : String :=
  match getObjOpt p "pull_request" with
  | some pr =>
    match getObjOpt pr "head" with
    | some head => getStrD head k
    | none => ""
  | none => ""

/-- Spec-side: the pull request creator's login; `""` when absent. -/
def prAuthorOf (p : JObj) : String :=
  match getObjOpt p "pull_request" with
  | some pr =>
    match getObjOpt pr "user" with
    | some user => getStrD user "login"
    | none => ""
  | none => ""

/-- Spec-side: the release object's field `k`; `""` when absent/mistyped. -/
def relFieldOf (p : JObj) (k : String) : String :=
  match getObjOpt p "release" with
  | some rel => getStrD rel k
  | none => ""

/-- Spec-side: the release author's login; `""` when absent/mistyped. -/
def relAuthorOf (p : JObj) : String :=
  match getObjOpt p "release" with
  | some rel =>
    match getObjOpt rel "author" with
    | some a => getStrD a "login"
    | none => ""
  | none => ""

/-- The event `normOk` dispatches on: base fields plus the uniformly
extracted repository. -/
def baseEvent (et : String) (body : List Nat) (p : JObj) (now : Nat) : GitEvent :=
  { provider := "github", eventType := et, repository := repoFullNameOf p,
    rawPayload := body, timestamp := now }

/-- `normOk` is the event-type dispatch applied to the base event. -/
theorem normOk_unfold (et : String) (body : List Nat) (p : JObj) (now : Nat) :
    normOk et body p now =
      (if et = "push" then normalizePushEvent (baseEvent et body p now) p
       else if et = "pull_request" then normalizePREvent (baseEvent et body p now) p
       else if et = "release" then normalizeReleaseEvent (baseEvent et body p now) p
       else if et = "create" ∨ et = "delete" then
         normalizeRefEvent (baseEvent et body p now) p
       else normalizeGenericEvent (baseEvent et body p now) p) := by
  unfold normOk baseEvent repoFullNameOf
  cases hrep : getObjOpt p "repository" <;> simp [hrep]

/-- The push normalizer's commit is the head commit's id, else "after". -/
theorem normalizePushEvent_commit (ev : GitEvent) (p : JObj) :
    (normalizePushEvent ev p).commit = pushCommitOf p := by
  (simp only [normalizePushEvent]; repeat' split) <;> simp_all [pushCommitOf]

/-- Starting from an empty message, the push normalizer's message is the
head commit's message, `""` when absent. -/
theorem normalizePushEvent_message (ev : GitEvent) (p : JObj) (hev : ev.message = "") :
    (normalizePushEvent ev p).message = pushHeadFieldOf p "message" := by
  (simp only [normalizePushEvent]; repeat' split) <;> simp_all [pushHeadFieldOf]

/-- Starting from an empty url, the push normalizer's url is the head
commit's url, `""` when absent. -/
theorem normalizePushEvent_url (ev : GitEvent) (p : JObj) (hev : ev.url = "") :
    (normalizePushEvent ev p).url = pushHeadFieldOf p "url" := by
  (simp only [normalizePushEvent]; repeat' split) <;> simp_all [pushHeadFieldOf]

/-- The push normalizer never writes the repository. -/
theorem normalizePushEvent_repo (ev : GitEvent) (p : JObj) :
    (normalizePushEvent ev p).repository = ev.repository := by
  (simp only [normalizePushEvent]; repeat' split) <;> simp

/-- Starting from an empty branch, the pull-request normalizer's branch is
the PR head ref, `""` along any absent link. -/
theorem normalizePREvent_branch (ev : GitEvent) (p : JObj) (hev : ev.branch = "") :
    (normalizePREvent ev p).branch = prHeadFieldOf p "ref" := by
  (simp only [normalizePREvent]; repeat' split) <;> simp_all [prHeadFieldOf]

/-- Starting from an empty commit, the pull-request normalizer's commit is
the PR head sha, `""` along any absent link. -/
theorem normalizePREvent_commit (ev : GitEvent) (p : JObj) (hev : ev.commit = "") :
    (normalizePREvent ev p).commit = prHeadFieldOf p "sha" := by
  (simp only [normalizePREvent]; repeat' split) <;> simp_all [prHeadFieldOf]

/-- Starting from an empty message, the pull-request normalizer's message
is the PR title, `""` when the PR object is absent. -/
theorem normalizePREvent_message (ev : GitEvent) (p : JObj) (hev : ev.message = "") :
    (normalizePREvent ev p).message = prFieldOf p "title" := by
  (simp only [normalizePREvent]; repeat' split) <;> simp_all [prFieldOf]

/-- Starting from an empty url, the pull-request normalizer's url is the
PR web link, `""` when the PR object is absent. -/
theorem normalizePREvent_url (ev : GitEvent) (p : JObj) (hev : ev.url = "") :
    (normalizePREvent ev p).url = prFieldOf p "html_url" := by
  (simp only [normalizePREvent]; repeat' split) <;> simp_all [prFieldOf]

/-- Starting from an empty author, the pull-request normalizer's author is
the PR creator's login, `""` along any absent link. -/
theorem normalizePREvent_author (ev : GitEvent) (p : JObj) (hev : ev.author = "") :
    (normalizePREvent ev p).author = prAuthorOf p := by
  (simp only [normalizePREvent]; repeat' split) <;> simp_all [prAuthorOf]

/-- The pull-request normalizer never writes the repository. -/
theorem normalizePREvent_repo (ev : GitEvent) (p : JObj) :
    (normalizePREvent ev p).repository = ev.repository := by
  (simp only [normalizePREvent]; repeat' split) <;> simp

/-- Starting from an empty message, the release normalizer's message is
the tag name, `""` when the release object is absent. -/
theorem normalizeReleaseEvent_message (ev : GitEvent) (p : JObj) (hev : ev.message = "") :
    (normalizeReleaseEvent ev p).message = relFieldOf p "tag_name" := by
  (simp only [normalizeReleaseEvent]; repeat' split) <;> simp_all [relFieldOf]

/-- Starting from an empty branch, the release normalizer's branch is the
tag name, `""` when the release object is absent. -/
theorem normalizeReleaseEvent_branch (ev : GitEvent) (p : JObj) (hev : ev.branch = "") :
    (normalizeReleaseEvent ev p).branch = relFieldOf p "tag_name" := by
  (simp only [normalizeReleaseEvent]; repeat' split) <;> simp_all [relFieldOf]

/-- Starting from an empty url, the release normalizer's url is the
release web link, `""` when the release object is absent. -/
theorem normalizeReleaseEvent_url (ev : GitEvent) (p : JObj) (hev : ev.url = "") :
    (normalizeReleaseEvent ev p).url = relFieldOf p "html_url" := by
  (simp only [normalizeReleaseEvent]; repeat' split) <;> simp_all [relFieldOf]

/-- Starting from an empty author, the release normalizer's author is the
release author's login, `""` along any absent link. -/
theorem normalizeReleaseEvent_author (ev : GitEvent) (p : JObj) (hev : ev.author = "") :
    (normalizeReleaseEvent ev p).author = relAuthorOf p := by
  (simp only [normalizeReleaseEvent]; repeat' split) <;> simp_all [relAuthorOf]

/-- The release normalizer never writes the commit. -/
theorem normalizeReleaseEvent_commit (ev : GitEvent) (p : JObj) :
    (normalizeReleaseEvent ev p).commit = ev.commit := by
  (simp only [normalizeReleaseEvent]; repeat' split) <;> simp

/-- The release normalizer never writes the repository. -/
theorem normalizeReleaseEvent_repo (ev : GitEvent) (p : JObj) :
    (normalizeReleaseEvent ev p).repository = ev.repository := by
  (simp only [normalizeReleaseEvent]; repeat' split) <;> simp

/-- Starting from an empty author, the create/delete normalizer's author is
the sender's login, `""` when absent. -/
theorem normalizeRefEvent_author (ev : GitEvent) (p : JObj) (hev : ev.author = "") :
    (normalizeRefEvent ev p).author = senderLoginOf p := by
  (simp only [normalizeRefEvent]; repeat' split) <;> simp_all [senderLoginOf]

/-- The create/delete normalizer writes neither commit, message, url nor
repository. -/
theorem normalizeRefEvent_untouched (ev : GitEvent) (p : JObj) :
    (normalizeRefEvent ev p).commit = ev.commit
    ∧ (normalizeRefEvent ev p).message = ev.message
    ∧ (normalizeRefEvent ev p).url = ev.url
    ∧ (normalizeRefEvent ev p).repository = ev.repository := by
  refine ⟨?_, ?_, ?_, ?_⟩ <;> (simp only [normalizeRefEvent]; repeat' split) <;> simp

/-- Starting from an empty author, the generic normalizer's author is the
sender's login, `""` when absent. -/
theorem normalizeGenericEvent_author (ev : GitEvent) (p : JObj) (hev : ev.author = "") :
    (normalizeGenericEvent ev p).author = senderLoginOf p := by
  (simp only [normalizeGenericEvent]; repeat' split) <;> simp_all [senderLoginOf]

/-- The generic normalizer writes nothing besides the author. -/
theorem normalizeGenericEvent_untouched (ev : GitEvent) (p : JObj) :
    (normalizeGenericEvent ev p).branch = ev.branch
    ∧ (normalizeGenericEvent ev p).commit = ev.commit
    ∧ (normalizeGenericEvent ev p).message = ev.message
    ∧ (normalizeGenericEvent ev p).url = ev.url
    ∧ (normalizeGenericEvent ev p).repository = ev.repository := by
  refine ⟨?_, ?_, ?_, ?_, ?_⟩ <;> (simp only [normalizeGenericEvent]; repeat' split) <;> simp

/-- The push normalizer's branch is the ref with the branch prefix stripped. -/
theorem normalizePushEvent_branch (ev : GitEvent) (p : JObj) :
    (normalizePushEvent ev p).branch = trimPref "refs/heads/" (getStrD p "ref") := by
  (simp only [normalizePushEvent]; repeat' split) <;> simp

/-- The create/delete normalizer's branch is the raw ref, verbatim. -/
theorem normalizeRefEvent_branch (ev : GitEvent) (p : JObj) :
    (normalizeRefEvent ev p).branch = getStrD p "ref" := by
  (simp only [normalizeRefEvent]; repeat' split) <;> simp

/-- Starting from an event with no author, the push normalizer resolves the
author as the first non-empty entry of the spec's fallback chain. -/
theorem normalizePushEvent_author (ev : GitEvent) (p : JObj) (hev : ev.author = "") :
    (normalizePushEvent ev p).author =
      firstNonEmpty [hcAuthorField p "username", hcAuthorField p "name",
                     pusherNameOf p, senderLoginOf p] := by
  unfold normalizePushEvent hcAuthorField pusherNameOf senderLoginOf
  cases hhc : getObjOpt p "head_commit" with
  | none =>
    cases hpu : getObjOpt p "pusher" <;> cases hse : getObjOpt p "sender" <;>
      simp [hev, hhc, hpu, hse, firstNonEmpty] <;> split_ifs <;>
        simp_all [firstNonEmpty]
  | some hc =>
    cases hau : getObjOpt hc "author" with
    | none =>
      cases hpu : getObjOpt p "pusher" <;> cases hse : getObjOpt p "sender" <;>
        simp [hev, hhc, hau, hpu, hse, firstNonEmpty] <;> split_ifs <;>
          simp_all [firstNonEmpty]
    | some a =>
      by_cases hu : getStrD a "username" = ""
      · cases hpu : getObjOpt p "pusher" <;> cases hse : getObjOpt p "sender" <;>
          simp [hev, hhc, hau, hpu, hse, hu, firstNonEmpty] <;> split_ifs <;>
            simp_all [firstNonEmpty]
      · cases hpu : getObjOpt p "pusher" <;> cases hse : getObjOpt p "sender" <;>
          simp [hev, hhc, hau, hpu, hse, hu, firstNonEmpty]

/-- C2: `normalizeGitHubEvent` errors exactly when the body fails to parse
as a generic JSON object (the error wraps the parse message); on every
successful parse it returns an event with provider "github", the given
event-type tag and the capture timestamp; and each of repository, branch,
commit, author, message and url equals a total extractor of its source
field that yields `""` whenever any link of that field's chain is absent
or wrongly typed — per field, for every payload (mixed payloads included),
so missing optional fields never cause a failure. -/
theorem normalizeGitHubEvent_total_and_defaults :
    (∀ et body e now,
      normalizeGitHubEvent et body (.error e) now = .error ("unmarshal payload: " ++ e))
    ∧ (∀ et body payload now,
        normalizeGitHubEvent et body (.ok payload) now = .ok (normOk et body payload now)
        ∧ (normOk et body payload now).provider = "github"
        ∧ (normOk et body payload now).eventType = et
        ∧ (normOk et body payload now).timestamp = now)
    ∧ (∀ et body payload now, payload.all (fun kv => !isStrObj kv.2) = true →
        normOk et body payload now =
          { provider := "github", eventType := et, rawPayload := body, timestamp := now })
    ∧ (∀ et body payload now,
        (normOk et body payload now).repository = repoFullNameOf payload)
    ∧ (∀ body payload now,
        (normOk "push" body payload now).branch =
            trimPref "refs/heads/" (getStrD payload "ref")
        ∧ (normOk "push" body payload now).commit = pushCommitOf payload
        ∧ (normOk "push" body payload now).message = pushHeadFieldOf payload "message"
        ∧ (normOk "push" body payload now).url = pushHeadFieldOf payload "url"
        ∧ (normOk "push" body payload now).author = pushAuthorOf payload)
    ∧ (∀ body payload now,
        (normOk "pull_request" body payload now).branch = prHeadFieldOf payload "ref"
        ∧ (normOk "pull_request" body payload now).commit = prHeadFieldOf payload "sha"
        ∧ (normOk "pull_request" body payload now).message = prFieldOf payload "title"
        ∧ (normOk "pull_request" body payload now).url = prFieldOf payload "html_url"
        ∧ (normOk "pull_request" body payload now).author = prAuthorOf payload)
    ∧ (∀ body payload now,
        (normOk "release" body payload now).branch = relFieldOf payload "tag_name"
        ∧ (normOk "release" body payload now).commit = ""
        ∧ (normOk "release" body payload now).message = relFieldOf payload "tag_name"
        ∧ (normOk "release" body payload now).url = relFieldOf payload "html_url"
        ∧ (normOk "release" body payload now).author = relAuthorOf payload)
    ∧ (∀ et, (et = "create" ∨ et = "delete") → ∀ body payload now,
        (normOk et body payload now).branch = getStrD payload "ref"
        ∧ (normOk et body payload now).commit = ""
        ∧ (normOk et body payload now).message = ""
        ∧ (normOk et body payload now).url = ""
        ∧ (normOk et body payload now).author = senderLoginOf payload)
    ∧ (∀ et, et ≠ "push" → et ≠ "pull_request" → et ≠ "release" → et ≠ "create" →
        et ≠ "delete" → ∀ body payload now,
        (normOk et body payload now).branch = ""
        ∧ (normOk et body payload now).commit = ""
        ∧ (normOk et body payload now).message = ""
        ∧ (normOk et body payload now).url = ""
        ∧ (normOk et body payload now).author = senderLoginOf payload) := by
  refine ⟨fun et body e now => rfl,
    fun et body payload now =>
      ⟨rfl, (normOk_base et body payload now).1, (normOk_base et body payload now).2.1,
        (normOk_base et body payload now).2.2.1⟩, ?_, ?_, ?_, ?_, ?_, ?_, ?_⟩
  · intro et body payload now hall
    have hg := getObjOpt_all hall
    have hs := getStrD_all hall
    simp only [normOk, hg]
    split_ifs <;>
      simp [normalizePushEvent_default _ _ hg hs, normalizePREvent_default _ _ hg,
            normalizeReleaseEvent_default _ _ hg, normalizeRefEvent_default _ _ hg hs,
            normalizeGenericEvent_default _ _ hg]
  · intro et body payload now
    rw [normOk_unfold]
    split_ifs <;>
      simp [normalizePushEvent_repo, normalizePREvent_repo, normalizeReleaseEvent_repo,
            normalizeRefEvent_untouched, normalizeGenericEvent_untouched, baseEvent]
  · intro body payload now
    rw [normOk_unfold, if_pos rfl]
    exact ⟨normalizePushEvent_branch _ payload, normalizePushEvent_commit _ payload,
           normalizePushEvent_message _ payload rfl, normalizePushEvent_url _ payload rfl,
           normalizePushEvent_author _ payload rfl⟩
  · intro body payload now
    rw [normOk_unfold, if_neg (by decide), if_pos rfl]
    exact ⟨normalizePREvent_branch _ payload rfl, normalizePREvent_commit _ payload rfl,
           normalizePREvent_message _ payload rfl, normalizePREvent_url _ payload rfl,
           normalizePREvent_author _ payload rfl⟩
  · intro body payload now
    rw [normOk_unfold, if_neg (by decide), if_neg (by decide), if_pos rfl]
    exact ⟨normalizeReleaseEvent_branch _ payload rfl,
           (normalizeReleaseEvent_commit _ payload).trans rfl,
           normalizeReleaseEvent_message _ payload rfl,
           normalizeReleaseEvent_url _ payload rfl,
           normalizeReleaseEvent_author _ payload rfl⟩
  · intro et het body payload now
    rcases het with rfl | rfl <;>
      rw [normOk_unfold, if_neg (by decide), if_neg (by decide), if_neg (by decide)]
    · rw [if_pos (Or.inl rfl)]
      exact ⟨normalizeRefEvent_branch _ payload,
             (normalizeRefEvent_untouched _ payload).1.trans rfl,
             (normalizeRefEvent_untouched _ payload).2.1.trans rfl,
             (normalizeRefEvent_untouched _ payload).2.2.1.trans rfl,
             normalizeRefEvent_author _ payload rfl⟩
    · rw [if_pos (Or.inr rfl)]
      exact ⟨normalizeRefEvent_branch _ payload,
             (normalizeRefEvent_untouched _ payload).1.trans rfl,
             (normalizeRefEvent_untouched _ payload).2.1.trans rfl,
             (normalizeRefEvent_untouched _ payload).2.2.1.trans rfl,
             normalizeRefEvent_author _ payload rfl⟩
  · intro et h1 h2 h3 h4 h5 body payload now
    rw [normOk_unfold, if_neg h1, if_neg h2, if_neg h3,
        if_neg (by rintro (h | h) <;> [exact h4 h; exact h5 h])]
    exact ⟨(normalizeGenericEvent_untouched _ payload).1.trans rfl,
           (normalizeGenericEvent_untouched _ payload).2.1.trans rfl,
           (normalizeGenericEvent_untouched _ payload).2.2.1.trans rfl,
           (normalizeGenericEvent_untouched _ payload).2.2.2.1.trans rfl,
           normalizeGenericEvent_author _ payload rfl⟩

/-- Witness for C2: a payload of wrongly-typed values normalizes to the
all-defaults event, and on a mixed payload — a mistyped string-valued
"repository" beside a valid "pull_request" object — the repository alone
defaults to `""` while the message is still extracted. -/
theorem normalizeGitHubEvent_total_and_defaults_witness :
    normOk "push" [1] [("ref", JValue.num 7), ("sender", JValue.null)] 3 =
        { provider := "github", eventType := "push", rawPayload := [1], timestamp := 3 }
      ∧ (normOk "pull_request" []
          [("repository", JValue.str "oops"),
           ("pull_request", JValue.obj [("title", JValue.str "T")])] 0).repository = ""
      ∧ (normOk "pull_request" []
          [("repository", JValue.str "oops"),
           ("pull_request", JValue.obj [("title", JValue.str "T")])] 0).message = "T" :=
  ⟨normalizeGitHubEvent_total_and_defaults.2.2.1 "push" [1]
      [("ref", JValue.num 7), ("sender", JValue.null)] 3 (by decide),
   (normalizeGitHubEvent_total_and_defaults.2.2.2.1 "pull_request" []
      [("repository", JValue.str "oops"),
       ("pull_request", JValue.obj [("title", JValue.str "T")])] 0).trans (by decide),
   ((normalizeGitHubEvent_total_and_defaults.2.2.2.2.2.1 []
      [("repository", JValue.str "oops"),
       ("pull_request", JValue.obj [("title", JValue.str "T")])] 0).2.2.1).trans (by decide)⟩

/-- C9: for any event type outside the five recognized ones, normalization
never errors, `author` is the sender's login (when present), `repository`,
`eventType`, `provider` and `timestamp` are populated as usual, and every
other field of the event is empty. -/
theorem unknown_event_minimal (et : String)
    (h1 : et ≠ "push") (h2 : et ≠ "pull_request") (h3 : et ≠ "release")
    (h4 : et ≠ "create") (h5 : et ≠ "delete") :
    ∀ body payload now,
      normalizeGitHubEvent et body (.ok payload) now = .ok (normOk et body payload now)
      ∧ (normOk et body payload now).branch = ""
      ∧ (normOk et body payload now).commit = ""
      ∧ (normOk et body payload now).message = ""
      ∧ (normOk et body payload now).url = ""
      ∧ (normOk et body payload now).author = senderLoginOf payload
      ∧ (normOk et body payload now).repository = repoFullNameOf payload
      ∧ (normOk et body payload now).provider = "github"
      ∧ (normOk et body payload now).eventType = et
      ∧ (normOk et body payload now).timestamp = now := by
  intro body payload now
  refine ⟨rfl, ?_⟩
  cases hrep : getObjOpt payload "repository" <;> cases hsen : getObjOpt payload "sender" <;>
    simp [normOk, h1, h2, h3, h4, h5, normalizeGenericEvent, senderLoginOf, repoFullNameOf,
          hrep, hsen]

/-- Witness for C9 at the concrete unknown event type "workflow_job". -/
theorem unknown_event_minimal_witness :
    (normOk "workflow_job" [] [("sender", JValue.obj [("login", JValue.str "octocat")])] 2).author
        = "octocat"
      ∧ (normOk "workflow_job" []
          [("sender", JValue.obj [("login", JValue.str "octocat")])] 2).branch = "" := by
  have h := unknown_event_minimal "workflow_job" (by decide) (by decide) (by decide)
    (by decide) (by decide) [] [("sender", JValue.obj [("login", JValue.str "octocat")])] 2
  exact ⟨h.2.2.2.2.2.1.trans (by decide), h.2.1⟩

/-- C7: normalizing a push event strips exactly the `"refs/heads/"` prefix
from the payload ref to produce the branch (leaving refs without that
prefix unchanged, e.g. `"refs/heads/main"` becomes `"main"`), while create
and delete events copy the raw ref into the branch verbatim (so `"v2.0.0"`
stays `"v2.0.0"`). -/
theorem branch_ref_semantics :
    (∀ body p now,
      (normOk "push" body p now).branch = trimPref "refs/heads/" (getStrD p "ref"))
    ∧ (∀ s : String, "refs/heads/".data.isPrefixOf s.data = false →
        trimPref "refs/heads/" s = s)
    ∧ (∀ body now,
        (normOk "push" body [("ref", JValue.str "refs/heads/main")] now).branch = "main")
    ∧ (∀ et, (et = "create" ∨ et = "delete") →
        ∀ body p now, (normOk et body p now).branch = getStrD p "ref")
    ∧ (∀ body now,
        (normOk "create" body [("ref", JValue.str "v2.0.0")] now).branch = "v2.0.0")
    := by
  have hpush : ∀ body p now,
      (normOk "push" body p now).branch = trimPref "refs/heads/" (getStrD p "ref") := by
    intro body p now
    simp [normOk, normalizePushEvent_branch]
  have href : ∀ et, (et = "create" ∨ et = "delete") →
      ∀ body p now, (normOk et body p now).branch = getStrD p "ref" := by
    intro et het body p now
    have hne1 : et ≠ "push" := by rcases het with h | h <;> subst h <;> decide
    have hne2 : et ≠ "pull_request" := by rcases het with h | h <;> subst h <;> decide
    have hne3 : et ≠ "release" := by rcases het with h | h <;> subst h <;> decide
    simp [normOk, hne1, hne2, hne3, het, normalizeRefEvent_branch]
  refine ⟨hpush, ?_, ?_, href, ?_⟩
  · intro s h
    simp [trimPref, h]
  · intro body now
    rw [hpush]
    decide
  · intro body now
    rw [href "create" (Or.inl rfl)]
    decide

/-- Witness for C7: a tag-shaped ref is left untouched by the push
prefix-stripping. -/
theorem branch_ref_semantics_witness : trimPref "refs/heads/" "v2.0.0" = "v2.0.0" :=
  branch_ref_semantics.2.1 "v2.0.0" (by decide)

/-- C6: for every push-event payload the normalized author is the first
non-empty value of: head-commit author's username, head-commit author's
name, pusher's name, sender's login — empty when all are absent/empty. -/
theorem push_author_resolution :
    ∀ body p now,
      (normOk "push" body p now).author =
        firstNonEmpty [hcAuthorField p "username", hcAuthorField p "name",
                       pusherNameOf p, senderLoginOf p] := by
  intro body p now
  cases hrep : getObjOpt p "repository" with
  | none =>
    simp only [normOk, hrep]
    exact normalizePushEvent_author _ p rfl
  | some repo =>
    simp only [normOk, hrep]
    exact normalizePushEvent_author _ p rfl

/-- A bitwise or of naturals is zero exactly when both sides are. -/
theorem natOrEqZero (a b : Nat) : a ||| b = 0 ↔ a = 0 ∧ b = 0 := by
  constructor
  · intro h
    have hb : ∀ i, a.testBit i = false ∧ b.testBit i = false := by
      intro i
      have h2 := congrArg (fun n => Nat.testBit n i) h
      simpa [Nat.testBit_lor] using h2
    exact ⟨Nat.eq_of_testBit_eq (fun i => by simp [(hb i).1, Nat.zero_testBit]),
           Nat.eq_of_testBit_eq (fun i => by simp [(hb i).2, Nat.zero_testBit])⟩
  · rintro ⟨rfl, rfl⟩
    rfl

/-- The or-accumulating fold shifts its accumulator out front. -/
theorem ctFold_shift (ps : List (Nat × Nat)) : ∀ v, ctFold ps v = v ||| ctFold ps 0 := by
  induction ps with
  | nil => intro v; simp [ctFold]
  | cons p rest ih =>
    intro v
    simp only [ctFold, List.foldl_cons] at *
    rw [ih (v ||| (p.1 ^^^ p.2)), ih (0 ||| (p.1 ^^^ p.2)), Nat.lor_assoc]
    simp

/-- For equal-length byte lists, the accumulated difference is zero exactly
when the lists are equal. -/
theorem ctFold_zip_zero_iff : ∀ (x y : List Nat), x.length = y.length →
    (ctFold (x.zip y) 0 = 0 ↔ x = y) := by
  intro x
  induction x with
  | nil =>
    intro y hl
    cases y with
    | nil => simp [ctFold]
    | cons b ys => simp at hl
  | cons a xs ih =>
    intro y hl
    cases y with
    | nil => simp at hl
    | cons b ys =>
      simp only [List.length_cons] at hl
      have hl' : xs.length = ys.length := by omega
      simp only [List.zip_cons_cons, ctFold, List.foldl_cons]
      rw [show List.foldl (fun acc p => acc ||| (p.1 ^^^ p.2)) (0 ||| (a ^^^ b)) (xs.zip ys) =
            ctFold (xs.zip ys) (0 ||| (a ^^^ b)) from rfl,
          ctFold_shift, Nat.zero_or, natOrEqZero, Nat.xor_eq_zero]
      rw [List.cons_eq_cons]
      exact and_congr Iff.rfl (ih ys hl')

/-- For equal-length inputs, `hmac.Equal` decides plain equality. -/
theorem hmacEqual_eq_iff (x y : List Nat) (h : x.length = y.length) :
    (hmacEqual x y = true) ↔ x = y := by
  unfold hmacEqual constantTimeCompare
  rw [if_pos h]
  rcases Classical.em (ctFold (x.zip y) 0 = 0) with hz | hz
  · have hxy := (ctFold_zip_zero_iff x y h).mp hz
    subst hxy
    simp [hz]
  · have hne : ¬x = y := fun he => hz ((ctFold_zip_zero_iff x y h).mpr he)
    simp [hz, hne]

/-- A SHA-256 digest always has 32 bytes. -/
theorem sha256_length (msg : List Nat) : (sha256 msg).length = 32 := by
  simp [sha256, be32]

/-- Hex encoding doubles the length. -/
theorem hexEncode_length (l : List Nat) : (hexEncode l).length = 2 * l.length := by
  induction l with
  | nil => rfl
  | cons b rest ih =>
    simp only [hexEncode, List.length_cons, ih]
    omega

/-- A computed signature digest always has 64 hex characters. -/
theorem computeSignature_length (body secret : List Nat) :
    (computeSignature body secret).length = 64 := by
  simp [computeSignature, hexEncode_length, hmacSha256, sha256_length]

/-- Validating against a well-formed `sha256=`-prefixed header reduces to
the constant-time digest comparison. -/
theorem validateSignature_append (body secret d : List Nat) :
    validateSignature body secret (sigScheme ++ d) =
      hmacEqual d (computeSignature body secret) := by
  unfold validateSignature
  rw [if_pos (by simp [List.isPrefixOf_iff_prefix]), List.drop_left]

/-- HMAC hashes keys longer than one block first, so a long key and its
SHA-256 digest produce identical signatures. -/
theorem hmac_keyhash (key msg : List Nat) (h : 64 < key.length) :
    hmacSha256 key msg = hmacSha256 (sha256 key) msg := by
  unfold hmacSha256
  simp [h, sha256_length]

/-- A 65-byte secret, longer than the HMAC block size. -/
def collisionKey : List Nat := List.replicate 65 97

/-- C3 counterexample: the secret `collisionKey` and the distinct secret
`sha256 collisionKey` sign every body identically, so a signature computed
under a different secret can still validate — refuting "validate(B, S,
sign(B, S2)) is false for any S2 ≠ S" at a concrete input. -/
theorem signature_secret_collision :
    collisionKey ≠ sha256 collisionKey
    ∧ validateSignature [] collisionKey
        (sigScheme ++ computeSignature [] (sha256 collisionKey)) = true := by
  constructor
  · intro h
    have h1 : collisionKey.length = 65 := by simp [collisionKey]
    have h2 := sha256_length collisionKey
    rw [← h] at h2
    omega
  · rw [validateSignature_append]
    have hkey : computeSignature [] (sha256 collisionKey) = computeSignature [] collisionKey := by
      unfold computeSignature
      rw [hmac_keyhash collisionKey [] (by simp [collisionKey])]
    rw [hkey]
    exact (hmacEqual_eq_iff _ _ rfl).mpr rfl

/-- C3 amended: a signature computed under the same secret always
validates, and a signature computed under a different secret fails to
validate whenever the two secrets' HMAC digests differ (colliding secrets
— such as a long key and its SHA-256 digest — are accepted). -/
theorem signature_roundtrip :
    (∀ body secret : List Nat,
      validateSignature body secret (sigScheme ++ computeSignature body secret) = true)
    ∧ (∀ body secret secret2 : List Nat,
        computeSignature body secret2 ≠ computeSignature body secret →
        validateSignature body secret (sigScheme ++ computeSignature body secret2) = false) := by
  constructor
  · intro body secret
    rw [validateSignature_append]
    exact (hmacEqual_eq_iff _ _ rfl).mpr rfl
  · intro body secret s2 hne
    rw [validateSignature_append]
    have hlen : (computeSignature body s2).length = (computeSignature body secret).length := by
      rw [computeSignature_length, computeSignature_length]
    rw [Bool.eq_false_iff]
    intro htrue
    exact hne ((hmacEqual_eq_iff _ _ hlen).mp htrue)

set_option maxRecDepth 100000 in
/-- Witness for the amended C3 at concrete one-byte secrets whose digests
differ. -/
theorem signature_roundtrip_witness :
    validateSignature [] [0] (sigScheme ++ computeSignature [] [0]) = true
    ∧ validateSignature [] [0] (sigScheme ++ computeSignature [] [1]) = false :=
  ⟨signature_roundtrip.1 [] [0], signature_roundtrip.2 [] [0] [1] (by decide)⟩

/-- C4: the digest comparison of `validateSignature` is `hmac.Equal`'s
constant-time loop: its iteration count is determined by the
attacker-supplied signature alone — identical whatever the secret-derived
expected digest (which always has 64 bytes) — while its boolean outcome
still decides exact equality with the expected digest. -/
theorem signature_compare_constant_time :
    (∀ (sig body1 secret1 body2 secret2 : List Nat),
      ctCost (sig.drop sigScheme.length) (computeSignature body1 secret1) =
        ctCost (sig.drop sigScheme.length) (computeSignature body2 secret2))
    ∧ (∀ body secret sig : List Nat,
        validateSignature body secret sig = true ↔
          sigScheme.isPrefixOf sig = true ∧
            sig.drop sigScheme.length = computeSignature body secret) := by
  constructor
  · intro sig body1 secret1 body2 secret2
    simp [ctCost, computeSignature_length]
  · intro body secret sig
    unfold validateSignature
    by_cases hp : sigScheme.isPrefixOf sig
    · rw [if_pos hp]
      by_cases hl : (sig.drop sigScheme.length).length = (computeSignature body secret).length
      · rw [hmacEqual_eq_iff _ _ hl]
        simp [hp]
      · constructor
        · intro htrue
          unfold hmacEqual constantTimeCompare at htrue
          rw [if_neg hl] at htrue
          simp at htrue
        · intro ⟨_, heq⟩
          exact absurd (congrArg List.length heq) hl
    · rw [if_neg hp]
      simp only [Bool.false_eq_true, false_iff, not_and]
      intro h
      exact absurd h hp

/-- A receiver with a configured secret and allow-list `["push"]`. -/
def cfgCex : webhookConfig :=
  { provider := "github", secret := [1], events := ["push"], topic := "git.events" }

/-- A POST delivery of a `pull_request` event with no signature header. -/
def reqCex : WebhookReq :=
  { method := "POST", bodyRead := .ok [], sigHeader := [], eventHeader := "pull_request" }

/-- Collaborator outcomes for the counterexample delivery. -/
def envCex : HandlerEnv :=
  { parsed := .ok [], now := 0, marshal := .ok [], hasPublisher := false,
    publishOutcome := .ok 0 }

/-- C5 counterexample: with a non-empty allow-list not containing the
delivered (non-empty) event type, a POST delivery can still be answered
401 (missing signature, secret configured) rather than the claimed
200/ignored response. -/
theorem allowlist_ignore_counterexample :
    (handleWebhook cfgCex reqCex envCex).1 =
        { status := 401, body := "missing X-Hub-Signature-256 header\n" }
      ∧ (handleWebhook cfgCex reqCex envCex).1.status ≠ 200 := by
  constructor <;> decide

/-- C5 amended: for a receiver with a non-empty allow-list, a POST delivery
whose body reads successfully, which satisfies the signature requirement
(no secret configured, or a present and valid signature), and whose
non-empty event type is not in the list, is answered 200 with the
"ignored" body and produces zero publish calls (the payload is never
normalized: the result is fixed whatever the parse outcome). -/
theorem allowlist_ignored_no_publish (cfg : webhookConfig) (req : WebhookReq)
    (env : HandlerEnv) (body : List Nat)
    (hm : req.method = "POST") (hb : req.bodyRead = .ok body)
    (hsig : cfg.secret = [] ∨
      (req.sigHeader ≠ [] ∧ validateSignature body cfg.secret req.sigHeader = true))
    (hev : req.eventHeader ≠ "")
    (hlist : cfg.events ≠ [])
    (hnot : containsString cfg.events req.eventHeader = false) :
    handleWebhook cfg req env =
      ({ status := 200, body := "\x7b\"status\":\"ignored\"\x7d" }, []) := by
  rcases hsig with hsec | ⟨hsh, hval⟩
  · simp [handleWebhook, hm, hb, hsec, hev, hlist, hnot]
  · simp [handleWebhook, hm, hb, hsh, hval, hev, hlist, hnot]

/-- Witness for the amended C5 at a concrete secretless receiver. -/
theorem allowlist_ignored_no_publish_witness :
    handleWebhook
        { provider := "github", secret := [], events := ["push"], topic := "git.events" }
        { method := "POST", bodyRead := .ok [], sigHeader := [], eventHeader := "pull_request" }
        { parsed := .ok [], now := 0, marshal := .ok [], hasPublisher := true,
          publishOutcome := .ok 0 } =
      ({ status := 200, body := "\x7b\"status\":\"ignored\"\x7d" }, []) :=
  allowlist_ignored_no_publish _ _ _ [] rfl rfl (Or.inl rfl) (by decide) (by decide) (by decide)

/-- A wait=true poller configuration with a long timeout. -/
def cfgPoll : actionStatusConfig :=
  { owner := "o", repo := "r", runID := 1, token := "t", wait := true,
    pollInterval := 1, timeout := 100 }

/-- An environment whose first fetch fails and whose second returns a
completed run, with time well inside the deadline. -/
def envPoll : PollEnv :=
  { fetch := fun i => if i = 0 then .error "boom" else .ok ⟨1, "completed", "success", "u"⟩,
    nowAfterFetch := fun i => (i : Int), cancelled := fun _ => false }

/-- C1 counterexample: with wait=true the first fetch fails, yet `Execute`
returns the successful completed result of a second fetch — not a stopped
result carrying the error, and a further fetch was performed. -/
theorem fetch_error_retried_counterexample :
    executeStatus cfgPoll envPoll (fun _ => "") 0 10 =
        some { stopPipeline := false,
               output := [("run_id", OutVal.int 1), ("status", OutVal.str "completed"),
                          ("conclusion", OutVal.str "success"), ("url", OutVal.str "u")] }
      ∧ (executeStatus cfgPoll envPoll (fun _ => "") 0 10).map (fun r => r.stopPipeline) =
          some false := by
  constructor <;> rfl

/-- C1 amended: when wait is false a failed fetch immediately yields the
terminal stopped result carrying the error message; when wait is true, the
stopped result of a failed fetch carries no "status" key, is treated as
non-terminal, and — before the deadline and absent cancellation — the loop
proceeds to the next iteration, so query failures are retried there. -/
theorem fetch_error_behavior :
    (∀ (cfg : actionStatusConfig) (env : PollEnv) (durStr : Int → String) (start : Int)
        (fuel : Nat) (e : String),
      cfg.token ≠ "" → cfg.wait = false → env.fetch 0 = .error e →
      executeStatus cfg env durStr start fuel =
        some (errorResult ("failed to get workflow run: " ++ e)))
    ∧ (∀ (cfg : actionStatusConfig) (env : PollEnv) (durStr : Int → String) (deadline : Int)
        (fuel i : Nat) (e : String),
      env.fetch i = .error e → ¬(deadline < env.nowAfterFetch i) → env.cancelled i = false →
      executeLoop cfg env durStr deadline (fuel + 1) i =
        executeLoop cfg env durStr deadline fuel (i + 1)) := by
  constructor
  · intro cfg env durStr start fuel e htok hwait hf
    simp [executeStatus, htok, hwait, hf, fetchStatus]
  · intro cfg env durStr deadline fuel i e hf hd hc
    simp [executeLoop, hf, fetchStatus, errorResult, outStr, outLookup, isTerminalStatus, hd, hc]

/-- The counterexample configuration with waiting disabled. -/
def cfgNoWait : actionStatusConfig :=
  { owner := "o", repo := "r", runID := 1, token := "t", wait := false,
    pollInterval := 1, timeout := 100 }

/-- Witness for the amended C1: a concrete wait=false error return, and one
concrete loop iteration stepping past a failed fetch. -/
theorem fetch_error_behavior_witness :
    executeStatus cfgNoWait envPoll (fun _ => "") 0 3 =
      some (errorResult ("failed to get workflow run: " ++ "boom"))
    ∧ executeLoop cfgPoll envPoll (fun _ => "") 100 3 0 =
        executeLoop cfgPoll envPoll (fun _ => "") 100 2 1 :=
  ⟨fetch_error_behavior.1 _ envPoll (fun _ => "") 0 3 "boom" (by decide) rfl rfl,
   fetch_error_behavior.2 cfgPoll envPoll (fun _ => "") 100 2 0 "boom" rfl (by decide) rfl⟩

/-- Once the deadline lies within the remaining fuel's reach, a loop whose
fetches always succeed without completing, with no cancellation and with
time advancing each iteration, returns the timeout result. -/
theorem executeLoop_timeout (cfg : actionStatusConfig) (env : PollEnv)
    (durStr : Int → String) (deadline : Int)
    (hok : ∀ i, ∃ run : WorkflowRun, env.fetch i = .ok run ∧ run.status ≠ "completed")
    (hc : ∀ i, env.cancelled i = false)
    (hstep : ∀ i, env.nowAfterFetch i + 1 ≤ env.nowAfterFetch (i + 1)) :
    ∀ (fuel i : Nat), deadline + 1 ≤ env.nowAfterFetch i + fuel →
      executeLoop cfg env durStr deadline (fuel + 1) i =
        some (errorResult (timeoutMessage cfg durStr)) := by
  intro fuel
  induction fuel with
  | zero =>
    intro i hle
    obtain ⟨run, hf, hs⟩ := hok i
    have hterm : isTerminalStatus (outStr (fetchStatus (env.fetch i)).output "status") = false := by
      rw [hf]
      simp [fetchStatus, outStr, outLookup, isTerminalStatus, hs]
    have hd : deadline < env.nowAfterFetch i := by
      simp only [Nat.cast_zero, Int.add_zero] at hle
      omega
    simp [executeLoop, hterm, hd]
  | succ n ih =>
    intro i hle
    obtain ⟨run, hf, hs⟩ := hok i
    have hterm : isTerminalStatus (outStr (fetchStatus (env.fetch i)).output "status") = false := by
      rw [hf]
      simp [fetchStatus, outStr, outLookup, isTerminalStatus, hs]
    by_cases hd : deadline < env.nowAfterFetch i
    · simp [executeLoop, hterm, hd]
    · have hnext : deadline + 1 ≤ env.nowAfterFetch (i + 1) + n := by
        have h1 := hstep i
        push_cast at hle ⊢
        omega
      simp [executeLoop, hterm, hd, hc i]
      exact ih (i + 1) hnext

/-- C8: with wait=true, fetches that always succeed but never return
"completed", no cancellation, a positive poll interval and monotone time,
`Execute` terminates within the deadline-determined fuel and returns the
stopped result describing the timeout — the loop is purely time-bounded. -/
theorem poll_timeout_terminates (cfg : actionStatusConfig) (env : PollEnv)
    (durStr : Int → String) (start : Int)
    (htok : cfg.token ≠ "") (hwait : cfg.wait = true)
    (hok : ∀ i, ∃ run : WorkflowRun, env.fetch i = .ok run ∧ run.status ≠ "completed")
    (hc : ∀ i, env.cancelled i = false)
    (hpi : 1 ≤ cfg.pollInterval)
    (hstep : ∀ i, env.nowAfterFetch i + cfg.pollInterval ≤ env.nowAfterFetch (i + 1))
    (h0 : start ≤ env.nowAfterFetch 0) :
    executeStatus cfg env durStr start (cfg.timeout.toNat + 2) =
        some (errorResult (timeoutMessage cfg durStr))
      ∧ (errorResult (timeoutMessage cfg durStr)).stopPipeline = true := by
  refine ⟨?_, rfl⟩
  have hstep1 : ∀ i, env.nowAfterFetch i + 1 ≤ env.nowAfterFetch (i + 1) := by
    intro i
    have := hstep i
    omega
  have hbound : (start + cfg.timeout) + 1 ≤
      env.nowAfterFetch 0 + ((cfg.timeout.toNat + 1 : Nat) : Int) := by
    have h2 : cfg.timeout ≤ (cfg.timeout.toNat : Int) := Int.self_le_toNat _
    push_cast
    omega
  have hrun := executeLoop_timeout cfg env durStr (start + cfg.timeout) hok hc hstep1
    (cfg.timeout.toNat + 1) 0 hbound
  simpa [executeStatus, htok, hwait] using hrun

/-- A wait=true configuration with timeout 3. -/
def cfgTW : actionStatusConfig :=
  { owner := "o", repo := "r", runID := 1, token := "t", wait := true,
    pollInterval := 1, timeout := 3 }

/-- Fetches that always return an in-progress run, with the clock advancing
one unit per iteration. -/
def envTW : PollEnv :=
  { fetch := fun _ => .ok ⟨1, "in_progress", "", ""⟩,
    nowAfterFetch := fun i => (i : Int), cancelled := fun _ => false }

/-- Witness for C8 at a never-completing concrete poller. -/
theorem poll_timeout_terminates_witness :
    executeStatus cfgTW envTW (fun _ => "3ns") 0 5 =
      some (errorResult (timeoutMessage cfgTW (fun _ => "3ns"))) :=
  (poll_timeout_terminates cfgTW envTW (fun _ => "3ns") 0 (by decide) rfl
    (fun i => ⟨⟨1, "in_progress", "", ""⟩, rfl, by decide⟩)
    (fun i => rfl) (by decide)
    (fun i => by simp [envTW, cfgTW])
    (by decide)).1
